import Mathlib

/-!
Shallow embedding of the documentation indexer (`src/indexer.ts`, `src/types.ts`
of the docs-mcp-server repository) and proofs about its specification claims.

JavaScript `Map` objects are modelled as insertion-ordered association lists
(`mapGet`, `mapSet`); JavaScript `Set` objects as insertion-ordered duplicate-free
lists (`jsAdd`).  Numbers that carry scores/weights are modelled as `Int`: every
score contribution of the model is integral (the tfidf weight is represented by
its tf factor; see the TF-IDF section).
-/

namespace DocsMcp

/-- Model of `Set.prototype.add`: appends the element unless already present. -/
def jsAdd (s : List String) (x : String) : List String :=
  if x ∈ s then s else s ++ [x]

/-- Model of `Map.prototype.get`: value of the first (unique) entry with the key. -/
def mapGet {α : Type} : List (String × α) → String → Option α
  | [], _ => none
  | (k', v') :: rest, k => if k' = k then some v' else mapGet rest k

/-- Model of `Map.prototype.set`: replaces the entry in place if the key exists,
otherwise appends a new entry (JS Maps preserve insertion order). -/
def mapSet {α : Type} : List (String × α) → String → α → List (String × α)
  | [], k, v => [(k, v)]
  | (k', v') :: rest, k, v =>
    if k' = k then (k, v) :: rest else (k', v') :: mapSet rest k v

/-- Model of `Map.prototype.has`. -/
def mapHas {α : Type} (m : List (String × α)) (k : String) : Bool :=
  (mapGet m k).isSome

/-- Model of the `if (!m.has(k)) m.set(k, new Set()); m.get(k)!.add(v)` pattern
used for the keyword/category/tag indices. -/
def setInsert (m : List (String × List String)) (k v : String) : List (String × List String) :=
  match mapGet m k with
  | some s => mapSet m k (jsAdd s v)
  | none => mapSet m k (jsAdd [] v)

/-!
String primitives.  The corresponding core `String` functions are implemented
with byte-position loops that the kernel cannot evaluate, so the model uses its
own structurally recursive versions over `List Char`.  Character case mapping
is ASCII, matching the corpora exercised here.
-/

/-- Model of `String.prototype.toLowerCase` (ASCII). -/
def lowerString (s : String) : String :=
  String.mk (s.data.map Char.toLower)

/-- Does `p` occur at the start of `s`? -/
def strStartsWith (s p : String) : Bool :=
  p.data.isPrefixOf s.data

/-- Does `p` occur at the end of `s`?  Models `String.prototype.endsWith`. -/
def strEndsWith (s p : String) : Bool :=
  p.data.reverse.isPrefixOf s.data.reverse

/-- Splits a character list at the first occurrence of the (nonempty) separator
`sep`: the part before and the part after, or `none` when `sep` does not occur. -/
def findSep (sep : List Char) : List Char → Option (List Char × List Char)
  | [] => none
  | c :: cs =>
    if sep.isPrefixOf (c :: cs) then some ([], (c :: cs).drop sep.length)
    else
      match findSep sep cs with
      | some (a, b) => some (c :: a, b)
      | none => none

/-- Fuelled splitting loop for `strSplit`. -/
def splitFuel (sep : List Char) : Nat → List Char → List (List Char)
  | 0, cs => [cs]
  | fuel + 1, cs =>
    match findSep sep cs with
    | some (a, b) => a :: splitFuel sep fuel b
    | none => [cs]

/-- Model of `String.prototype.split(sep)` for a nonempty separator. -/
def strSplit (s sep : String) : List String :=
  (splitFuel sep.data (s.data.length + 1) s.data).map String.mk

/-- Model of `String.prototype.trim` (ASCII whitespace). -/
def trimString (s : String) : String :=
  String.mk (((s.data.dropWhile Char.isWhitespace).reverse.dropWhile
    Char.isWhitespace).reverse)

/-- Word characters of the `natural` WordTokenizer: ASCII letters, digits, underscore. -/
def isWordChar (c : Char) : Bool :=
  c.isAlpha || c.isDigit || c = '_'

/-- Splits a character list into maximal runs of word characters. -/
def tokenizeChars : List Char → List Char → List String
  | [], cur => if cur.isEmpty then [] else [String.mk cur.reverse]
  | c :: cs, cur =>
    if isWordChar c then tokenizeChars cs (c :: cur)
    else if cur.isEmpty then tokenizeChars cs []
    else String.mk cur.reverse :: tokenizeChars cs []

/-- Model of `tokenizer.tokenize(text.toLowerCase())` (the `natural` WordTokenizer
applied to the lowercased text): lowercase, then split into alphanumeric runs. -/
def tokenize (s : String) : List String :=
  tokenizeChars (lowerString s).data []

/-- Does the character list `hay` contain `needle` as a contiguous sublist?
Models `String.prototype.includes`. -/
def listContainsSub : List Char → List Char → Bool
  | hay, needle =>
    if needle.isPrefixOf hay then true
    else
      match hay with
      | [] => false
      | _ :: t => listContainsSub t needle

/-- Model of `hay.includes(needle)` on strings. -/
def strIncludes (hay needle : String) : Bool :=
  listContainsSub hay.data needle.data

/-!
Data model, mirroring `src/types.ts`.

`DocumentMetadata` is modelled at the types the interface declares
(`title?: string`, `tags?: string[]`, `category?: string`, `related?: string[]`,
`summary?: string`).  After `indexDocument` every field is populated (with the
default-inference rules applied for absent frontmatter keys), so the stored
metadata carries plain values rather than options.  Unrecognized frontmatter
keys (`[key: string]: any`) are retained opaquely by the source and read by no
algorithm of this core, so they are not represented.
-/

structure DocumentMetadata where
  title : String
  tags : List String
  category : String
  related : List String
  summary : String
  deriving Repr, DecidableEq

structure Document where
  path : String
  content : String
  metadata : DocumentMetadata
  lastModified : Int
  deriving Repr, DecidableEq

structure DocumentIndex where
  documents : List (String × Document)
  keywords : List (String × List String)
  categories : List (String × List String)
  tags : List (String × List String)
  tfidf : List (String × List (String × Int))
  relationships : List (String × List String)
  deriving Repr, DecidableEq

/-- The freshly reset index built at the start of `buildIndex`. -/
def emptyIndex : DocumentIndex :=
  { documents := [], keywords := [], categories := [], tags := [],
    tfidf := [], relationships := [] }

/-- Result of `matter(content)` together with `stats.mtimeMs` for one readable,
parseable file: the recognized frontmatter keys (each `none` when the key is
absent from the frontmatter) and the body with the frontmatter stripped. -/
structure ParsedFile where
  title : Option String
  tags : Option (List String)
  category : Option String
  related : Option (List String)
  summary : Option String
  content : String
  mtime : Int
  deriving Repr, DecidableEq

/-- File-system tree handed to the build.  A `dir none` is a directory whose
`fs.readdir` call throws (missing or permission-denied); a `file none` is a file
whose `fs.readFile`/`fs.stat`/`matter` step throws. -/
inductive FSTree where
  | file (parsed : Option ParsedFile)
  | dir (entries : Option (List (String × FSTree)))

/-- The `DocumentIndexer` instance state: the configured root and the index
snapshot queries read. -/
structure IndexerState where
  docsPath : String
  index : DocumentIndex
  deriving Repr, DecidableEq

/-!
Path helpers, mirroring the private methods of `DocumentIndexer`.

`path.join(dir, name)` is modelled as `dir ++ "/" ++ name` and
`path.relative(docsPath, filePath)` as stripping the `docsPath ++ "/"` prefix:
the indexer only ever feeds `path.relative` the root itself and paths produced
by joining the root with discovered entry names, where the two agree.
-/

def pathJoin (dir name : String) : String := dir ++ "/" ++ name

def getRelativePath (docsPath filePath : String) : String :=
  if strStartsWith filePath (docsPath ++ "/") then
    filePath.drop (docsPath.length + 1)
  else filePath

/-- Model of `path.isAbsolute` on POSIX. -/
def pathIsAbsolute (p : String) : Bool := strStartsWith p "/"

/-- Model of `normalizePath`: absolute paths are made relative to the root,
otherwise a single leading `./` or `../` is removed (`replace(/^\.\.?\//, '')`). -/
def normalizePath (docsPath p : String) : String :=
  if pathIsAbsolute p then getRelativePath docsPath p
  else if strStartsWith p "./" then p.drop 2
  else if strStartsWith p "../" then p.drop 3
  else p

/-- Model of `path.basename(filePath, '.md')`: the part after the last `/`,
with a trailing `.md` removed. -/
def pathBasenameMd (filePath : String) : String :=
  let base := (strSplit filePath "/").getLastD filePath
  if strEndsWith base ".md" then base.dropRight 3 else base

/-- Model of `word.charAt(0).toUpperCase() + word.slice(1)`. -/
def capitalizeWord (w : String) : String :=
  match w.data with
  | [] => ""
  | c :: cs => String.mk (c.toUpper :: cs)

/-- Model of `extractTitleFromPath`. -/
def extractTitleFromPath (filePath : String) : String :=
  String.intercalate " " ((strSplit (pathBasenameMd filePath) "-").map capitalizeWord)

/-- Model of `extractCategoryFromPath`: second-to-last component of the
relative path, or `"general"` for files at the root. -/
def extractCategoryFromPath (docsPath filePath : String) : String :=
  let parts := strSplit (getRelativePath docsPath filePath) "/"
  if parts.length > 1 then parts.getD (parts.length - 2) "" else "general"

/-- Strips one leading run of `#` characters followed by a run of whitespace
(the regex `^#+\s+`) from a character list; returns the original list when the
regex does not match. -/
def stripHeadingChars (cs : List Char) : List Char :=
  let hashes := cs.takeWhile (fun c => c = '#')
  let afterHashes := cs.dropWhile (fun c => c = '#')
  let spaces := afterHashes.takeWhile Char.isWhitespace
  if hashes.isEmpty || spaces.isEmpty then cs
  else afterHashes.dropWhile Char.isWhitespace

/-- Loop body of `extractFirstParagraph` over the `\n\n`-separated paragraphs. -/
def firstParagraphLoop : List String → String
  | [] => ""
  | para :: rest =>
    let cleaned := String.mk (stripHeadingChars (trimString para).data)
    if cleaned.length > 20 then cleaned.take 200 else firstParagraphLoop rest

/-- Model of `extractFirstParagraph`: first `\n\n`-separated paragraph whose
trimmed, heading-stripped text exceeds 20 characters, truncated to 200. -/
def extractFirstParagraph (content : String) : String :=
  firstParagraphLoop (strSplit content "\n\n")

/-!
Loader: `findMarkdownFiles` and `indexDocument`.
-/

mutual

/-- Model of `findMarkdownFiles(dir)`: recursively collects the full paths of
`.md` files.  A failing `readdir` (`dir none`) is caught and contributes no
files — including when it is the root directory itself. -/
def findMarkdownFiles (dir : String) : FSTree → List String
  | .file _ => []
  | .dir none => []
  | .dir (some entries) => findMarkdownFilesEntries dir entries

/-- The `for (const entry of entries)` loop of `findMarkdownFiles`. -/
def findMarkdownFilesEntries (dir : String) : List (String × FSTree) → List String
  | [] => []
  | (name, FSTree.dir d) :: rest =>
    findMarkdownFiles (pathJoin dir name) (FSTree.dir d) ++
      findMarkdownFilesEntries dir rest
  | (name, FSTree.file _) :: rest =>
    (if strEndsWith name ".md" then [pathJoin dir name] else []) ++
      findMarkdownFilesEntries dir rest

end

mutual

/-- Reads the parsed contents of the file at `target` from the tree rooted at
`p` (the root carries path `p`, children carry joined paths). -/
def fsReadFile (p : String) (t : FSTree) (target : String) : Option ParsedFile :=
  match t with
  | .file d => if p = target then d else none
  | .dir none => none
  | .dir (some entries) => fsReadEntries p entries target

def fsReadEntries (p : String) (entries : List (String × FSTree)) (target : String) :
    Option ParsedFile :=
  match entries with
  | [] => none
  | (name, t) :: rest =>
    match fsReadFile (pathJoin p name) t target with
    | some d => some d
    | none => fsReadEntries p rest target

end

/-- Model of `indexKeywords`: tokenize the lowercased
`title + " " + summary + " " + content` and register every token of length
greater than 2 into the inverted keyword index. -/
def indexKeywords (idx : DocumentIndex) (doc : Document) : DocumentIndex :=
  let text := doc.metadata.title ++ " " ++ doc.metadata.summary ++ " " ++ doc.content
  (tokenize text).foldl
    (fun i token =>
      if token.length > 2 then
        { i with keywords := setInsert i.keywords token doc.path }
      else i)
    idx

/-- Metadata assembled by `indexDocument`.  The object literal first computes
defaults (`parsed.data.title || ...`, `Array.isArray(...) ? ... : []`, etc.) and
then spreads `...parsed.data`, so whenever a recognized key is present in the
frontmatter its raw frontmatter value wins; the computed default survives only
when the key is absent. -/
def mkMetadata (docsPath filePath : String) (parsed : ParsedFile) : DocumentMetadata :=
  { title := parsed.title.getD (extractTitleFromPath filePath)
    tags := parsed.tags.getD []
    category := parsed.category.getD (extractCategoryFromPath docsPath filePath)
    related := parsed.related.getD []
    summary := parsed.summary.getD (extractFirstParagraph parsed.content) }

/-- Model of `indexDocument(filePath)`: on a read/stat/parse failure the catch
block logs and leaves the index untouched; otherwise the document is stored and
the keyword, category and tag structures are populated. -/
def indexDocument (docsPath : String) (root : FSTree) (idx : DocumentIndex)
    (filePath : String) : DocumentIndex :=
  match fsReadFile docsPath root filePath with
  | none => idx
  | some parsed =>
    let metadata := mkMetadata docsPath filePath parsed
    let doc : Document :=
      { path := getRelativePath docsPath filePath
        content := parsed.content
        metadata := metadata
        lastModified := parsed.mtime }
    let idx := { idx with documents := mapSet idx.documents doc.path doc }
    let idx := indexKeywords idx doc
    let idx :=
      if metadata.category ≠ "" then
        { idx with categories := setInsert idx.categories metadata.category doc.path }
      else idx
    metadata.tags.foldl
      (fun i tag => { i with tags := setInsert i.tags tag doc.path }) idx

/-!
TF-IDF: `buildTfIdfIndex` delegates to the `natural` library.  `TfIdf`
lowercases the text, tokenizes it with the WordTokenizer, removes the library's
English stopwords, and stores every remaining term of the document.  `listTerms`
returns all of those terms, each with its tf·idf weight, and the indexer copies
them verbatim into `index.tfidf` with no length filtering.

The numeric weight `natural` assigns is `tf * (1 + ln(N / (1 + df)))`, a
positive real for every stored term (`1 + df ≤ N + 1 < e·N`); its exact value
involves a transcendental logarithm and is represented here by the `tf` factor.
No claim in this development reads the stored number: the claims concern which
terms are stored (C5) and treat the tfidf table as an arbitrary
nonnegative-valued map during search scoring (C9).
-/

/-- English stopword list of the `natural` library (`lib/natural/util/stopwords.js`):
common words plus all single letters, digits and the underscore. -/
def naturalStopwords : List String :=
  ["about", "above", "after", "again", "all", "also", "am", "an", "and", "another",
   "any", "are", "as", "at", "be", "because", "been", "before", "being", "below",
   "between", "both", "but", "by", "came", "can", "cannot", "come", "could", "did",
   "do", "does", "doing", "during", "each", "few", "for", "from", "further", "get",
   "got", "has", "had", "he", "have", "her", "here", "him", "himself", "his", "how",
   "if", "in", "into", "is", "it", "its", "itself", "like", "make", "many", "me",
   "might", "more", "most", "much", "must", "my", "myself", "never", "now", "of",
   "on", "only", "or", "other", "our", "ours", "ourselves", "out", "over", "own",
   "said", "same", "see", "should", "since", "so", "some", "still", "such", "take",
   "than", "that", "the", "their", "them", "then", "there", "these", "they", "this",
   "those", "through", "to", "too", "under", "until", "up", "very", "was", "way",
   "we", "well", "were", "what", "where", "when", "which", "while", "who", "whom",
   "with", "would", "you", "your", "yours", "yourself",
   "a", "b", "c", "d", "e", "f", "g", "h", "i", "j", "k", "l", "m", "n", "o", "p",
   "q", "r", "s", "t", "u", "v", "w", "x", "y", "z",
   "0", "1", "2", "3", "4", "5", "6", "7", "8", "9", "_"]

/-- The terms `natural`'s TfIdf records for one document text: the tokens of the
lowercased text minus stopwords (in multiplicity, used for tf counts). -/
def tfidfTokens (text : String) : List String :=
  (tokenize text).filter (fun t => !(naturalStopwords.contains t))

/-- Model of `buildTfIdfIndex`: for each document, store a map from each of its
distinct TfIdf terms to its weight (represented by the tf count, see above). -/
def buildTfIdfIndex (documents : List (String × Document)) :
    List (String × List (String × Int)) :=
  documents.map (fun e =>
    let text := e.2.metadata.title ++ " " ++ e.2.metadata.summary ++ " " ++ e.2.content
    let terms := tfidfTokens text
    (e.1, (terms.foldl jsAdd []).map (fun t => (t, (terms.count t : Int)))))

/-!
Relationship graph: `buildRelationships`.
-/

/-- Splits a character list at the first occurrence of `c`: returns the part
before and the part after (without `c`), or `none` when `c` is absent. -/
def splitAtChar (c : Char) : List Char → Option (List Char × List Char)
  | [] => none
  | x :: xs =>
    if x = c then some ([], xs)
    else
      match splitAtChar c xs with
      | some (a, b) => some (x :: a, b)
      | none => none

/-- Scanner for the link regex `/\[([^\]]+)\]\(([^)]+\.md)\)/g`: a match is
`[` + nonempty `]`-free text + `](` + nonempty `)`-free target + `)`, where the
target consists of at least one character followed by `.md`.  On a failed match
attempt the scan advances by one character (the regex restarts at `index + 1`);
after a match it resumes after the closing `)` (`lastIndex`). -/
def scanLinks : Nat → List Char → List String
  | 0, _ => []
  | _, [] => []
  | fuel + 1, c :: rest =>
    if c = '[' then
      match splitAtChar ']' rest with
      | some (g1, rest1) =>
        if g1.isEmpty then scanLinks fuel rest
        else
          match rest1 with
          | '(' :: rest2 =>
            (match splitAtChar ')' rest2 with
             | some (g2, rest3) =>
               if 4 ≤ g2.length ∧ strEndsWith (String.mk g2) ".md" then
                 String.mk g2 :: scanLinks fuel rest3
               else scanLinks fuel rest
             | none => scanLinks fuel rest)
          | _ => scanLinks fuel rest
      | none => scanLinks fuel rest
    else scanLinks fuel rest

/-- Model of the `linkRegex.exec` loop: the captured `.md` targets of the
markdown-style links embedded in `content`, in order. -/
def extractLinks (content : String) : List String :=
  scanLinks content.length content.data

/-- The per-document body of `buildRelationships`: the related-path set computed
for document `doc` at key `docPath`, given the full documents map. -/
def computeRelated (docsPath : String) (documents : List (String × Document))
    (docPath : String) (doc : Document) : List String :=
  let related : List String := []
  let related := doc.metadata.related.foldl
    (fun s rel =>
      let normalizedRel := normalizePath docsPath rel
      if mapHas documents normalizedRel then jsAdd s normalizedRel else s)
    related
  let related := documents.foldl
    (fun s other =>
      if other.1 = docPath then s
      else
        let s :=
          if doc.metadata.category ≠ "" ∧
              doc.metadata.category = other.2.metadata.category then
            jsAdd s other.1
          else s
        let sharedTags := doc.metadata.tags.filter
          (fun tag => other.2.metadata.tags.contains tag)
        if sharedTags.length ≥ 2 then jsAdd s other.1 else s)
    related
  (extractLinks doc.content).foldl
    (fun s link =>
      let linkedPath := normalizePath docsPath link
      if mapHas documents linkedPath then jsAdd s linkedPath else s)
    related

/-- Model of `buildRelationships`: for every document, compute its related set
from explicit frontmatter declarations, shared category, shared tags (at least
two), and embedded markdown links. -/
def buildRelationships (docsPath : String) (documents : List (String × Document)) :
    List (String × List String) :=
  documents.foldl
    (fun relMap e => mapSet relMap e.1 (computeRelated docsPath documents e.1 e.2))
    []

/-!
Build pipeline: `buildIndex`.
-/

/-- Model of the body of `buildIndex`: reset the index, discover files, index
each document, then build the TF-IDF table and the relationship map. -/
def buildIndexRun (docsPath : String) (root : FSTree) : DocumentIndex :=
  let idx := emptyIndex
  let files := findMarkdownFiles docsPath root
  let idx := files.foldl (indexDocument docsPath root) idx
  let idx := { idx with tfidf := buildTfIdfIndex idx.documents }
  { idx with relationships := buildRelationships docsPath idx.documents }

/-- Model of `buildIndex()` as a state transition of the indexer.  Every
fallible step of the source is wrapped in its own try/catch (`findMarkdownFiles`
and `indexDocument` swallow their errors) and the remaining steps are pure, so
no code path of `buildIndex` can reject: the result is always `Except.ok`, and
the previous snapshot is unconditionally replaced. -/
def buildIndex (s : IndexerState) (root : FSTree) : Except String IndexerState :=
  Except.ok { s with index := buildIndexRun s.docsPath root }

/-!
Queries: `getDocument`, `search`, `getRelatedDocuments`.
-/

/-- Model of `getDocument(docPath)`: a plain `Map.get` with the argument used as
the key verbatim. -/
def getDocument (idx : DocumentIndex) (docPath : String) : Option Document :=
  mapGet idx.documents docPath

/-- Stable insertion into a descending-ordered score list: the new entry goes
after every entry with an equal or higher score.  Together with `sortByScoreDesc`
this models `Array.prototype.sort((a, b) => b[1] - a[1])`, which is stable. -/
def insertScoreDesc (x : String × Int) : List (String × Int) → List (String × Int)
  | [] => [x]
  | y :: ys => if x.2 ≤ y.2 then y :: insertScoreDesc x ys else x :: y :: ys

/-- Stable sort of `(path, score)` entries by descending score. -/
def sortByScoreDesc (l : List (String × Int)) : List (String × Int) :=
  l.foldl (fun acc x => insertScoreDesc x acc) []

/-- The `category` filter of `search`: skip the document when a category
argument was passed, is truthy (non-empty), and differs from the document's. -/
def catSkip (category : Option String) (d : Document) : Bool :=
  match category with
  | none => false
  | some c => decide (c ≠ "" ∧ d.metadata.category ≠ c)

/-- The `tags` filter of `search`: skip the document when a non-empty tag list
was passed and some required tag is missing (exact string comparison). -/
def tagSkip (tags : Option (List String)) (d : Document) : Bool :=
  match tags with
  | none => false
  | some s => decide (s ≠ [] ∧ ¬ (∀ t ∈ s, t ∈ d.metadata.tags))

/-- The keyword test of `search`:
`keywords.has(token) && keywords.get(token)!.has(docPath)`. -/
def kwHas (idx : DocumentIndex) (token docPath : String) : Bool :=
  match mapGet idx.keywords token with
  | some s => decide (docPath ∈ s)
  | none => false

/-- The accumulated relevance score `search` computes for one surviving
document: four passes over the query tokens adding the keyword hit (+1), the
stored TF-IDF weight (0 if absent), the title-substring bonus (+5) and the
tag-substring bonus (+3). -/
def docScore (idx : DocumentIndex) (queryTokens : List String) (docPath : String)
    (d : Document) : Int :=
  let score : Int := 0
  let score := queryTokens.foldl
    (fun s token => if kwHas idx token docPath then s + 1 else s) score
  let score :=
    match mapGet idx.tfidf docPath with
    | some tfidfScores =>
      queryTokens.foldl (fun s token => s + (mapGet tfidfScores token).getD 0) score
    | none => score
  let titleLower := lowerString d.metadata.title
  let score := queryTokens.foldl
    (fun s token => if strIncludes titleLower token then s + 5 else s) score
  queryTokens.foldl
    (fun s token =>
      if d.metadata.tags.any (fun tag => strIncludes (lowerString tag) token) then s + 3
      else s)
    score

/-- Model of `search(query, category?, tags?)`: filter, score, keep positive
scores, and return the paths sorted by descending score. -/
def search (idx : DocumentIndex) (query : String) (category : Option String)
    (tags : Option (List String)) : List String :=
  let queryTokens := tokenize query
  let scores := idx.documents.foldl
    (fun acc e =>
      if catSkip category e.2 then acc
      else if tagSkip tags e.2 then acc
      else
        let score := docScore idx queryTokens e.1 e.2
        if 0 < score then mapSet acc e.1 score else acc)
    []
  (sortByScoreDesc scores).map Prod.fst

/-- The neighbor score of `getRelatedDocuments` when both the source and the
neighbor document resolve: base 1, +2 for equal categories, + the length of the
source tag list filtered by membership in the neighbor's tag list, +5 when the
source's raw `related` declarations contain the neighbor's path. -/
def relScore (doc relDoc : Document) (relPath : String) : Int :=
  let score : Int := 1
  let score := if doc.metadata.category = relDoc.metadata.category then score + 2 else score
  let sharedTags := doc.metadata.tags.filter
    (fun tag => relDoc.metadata.tags.contains tag)
  let score := score + sharedTags.length
  if doc.metadata.related.contains relPath then score + 5 else score

/-- Model of `getRelatedDocuments(docPath, limit)`: score the precomputed
neighbors, sort descending, truncate to `limit`. -/
def getRelatedDocuments (idx : DocumentIndex) (docPath : String) (limit : Nat) :
    List String :=
  match mapGet idx.relationships docPath with
  | none => []
  | some related =>
    if related.isEmpty then []
    else
      let doc := mapGet idx.documents docPath
      let scores := related.foldl
        (fun acc relPath =>
          let relDoc := mapGet idx.documents relPath
          let score :=
            match relDoc, doc with
            | some rd, some d => relScore d rd relPath
            | _, _ => (1 : Int)
          mapSet acc relPath score)
        []
      ((sortByScoreDesc scores).take limit).map Prod.fst

/-- The neighbor score as the specification describes it: the tag component is
the size of the set intersection of the two tag sets, each shared tag counted
exactly once.  Stated for comparison with `relScore` (claim C4). -/
def specRelScore (doc relDoc : Document) (relPath : String) : Int :=
  1 + (if doc.metadata.category = relDoc.metadata.category then 2 else 0) +
    ((doc.metadata.tags.toFinset ∩ relDoc.metadata.tags.toFinset).card : Int) +
    (if doc.metadata.related.contains relPath then 5 else 0)

/-!
Dynamic-semantics model of `indexDocument` (claim C3).

`types.ts` declares `tags?: string[]`, but `DocumentMetadata` also carries
`[key: string]: any`, and `indexDocument` builds the metadata object as
`{ tags: Array.isArray(parsed.data.tags) ? parsed.data.tags : [], ...parsed.data }`:
the trailing spread re-overrides `tags` with the *raw* frontmatter value
whenever the key is present, defeating the `Array.isArray` normalization.  The
subsequent `for (const tag of metadata.tags)` loop then runs JavaScript
iteration on that raw value: arrays iterate their elements, strings iterate
their characters, and any other truthy value (a number, a boolean) throws a
`TypeError` that the surrounding catch swallows — *after* the document has
already been stored and the keyword and category indices mutated.  This model
renders exactly that control flow; the other recognized fields are kept at
their declared string types, which the claim does not exercise.
-/

/-- A frontmatter value for the `tags` key, as YAML can produce it.  Array
elements are kept at `String`; the element type does not affect the modelled
control flow. -/
inductive JSVal where
  | jstr (s : String)
  | jnum (n : Int)
  | jarr (elems : List String)
  | jbool (b : Bool)
  | jnull
  deriving Repr, DecidableEq

/-- JavaScript truthiness of a `JSVal`. -/
def jsTruthy : JSVal → Bool
  | .jstr s => decide (s ≠ "")
  | .jnum n => decide (n ≠ 0)
  | .jarr _ => true
  | .jbool b => b
  | .jnull => false

/-- JavaScript `for...of` iteration of a `JSVal`: arrays yield their elements,
strings yield their characters; numbers, booleans and null are not iterable and
throw a `TypeError` (`none`). -/
def jsIterate : JSVal → Option (List String)
  | .jarr xs => some xs
  | .jstr s => some (s.data.map (fun c => String.mk [c]))
  | _ => none

/-- Parse result of one file for the dynamic model: like `ParsedFile`, but the
`tags` key carries its raw frontmatter value. -/
structure DynParsed where
  title : Option String
  tagsVal : Option JSVal
  category : Option String
  related : Option (List String)
  summary : Option String
  content : String
  mtime : Int
  deriving Repr, DecidableEq

/-- A stored document in the dynamic model; `tagsVal` is the raw metadata value
the spread left in `metadata.tags`. -/
structure DynDocument where
  path : String
  content : String
  title : String
  tagsVal : JSVal
  category : String
  related : List String
  summary : String
  mtime : Int
  deriving Repr, DecidableEq

/-- The index structures `indexDocument` mutates, in the dynamic model. -/
structure DynIndex where
  documents : List (String × DynDocument)
  keywords : List (String × List String)
  categories : List (String × List String)
  tags : List (String × List String)
  deriving Repr, DecidableEq

def emptyDynIndex : DynIndex :=
  { documents := [], keywords := [], categories := [], tags := [] }

/-- Dynamic-semantics model of `indexDocument(filePath)`.  `read` is the
combined result of `readFile`/`stat`/`matter` (`none` = one of them threw, the
catch skips the file with no mutation).  On success the mutations happen in
source order: documents map, keyword index, category index, then the tag loop —
which throws (and is caught) when the raw `tags` value is truthy but not
iterable, leaving the earlier mutations in place. -/
def indexDocumentDyn (docsPath filePath : String) (read : Option DynParsed)
    (idx : DynIndex) : DynIndex :=
  match read with
  | none => idx
  | some parsed =>
    let title := parsed.title.getD (extractTitleFromPath filePath)
    let tagsVal := parsed.tagsVal.getD (JSVal.jarr [])
    let category := parsed.category.getD (extractCategoryFromPath docsPath filePath)
    let related := parsed.related.getD []
    let summary := parsed.summary.getD (extractFirstParagraph parsed.content)
    let docPath := getRelativePath docsPath filePath
    let doc : DynDocument :=
      { path := docPath, content := parsed.content, title := title,
        tagsVal := tagsVal, category := category, related := related,
        summary := summary, mtime := parsed.mtime }
    let idx := { idx with documents := mapSet idx.documents docPath doc }
    let text := title ++ " " ++ summary ++ " " ++ parsed.content
    let idx := (tokenize text).foldl
      (fun i token =>
        if token.length > 2 then
          { i with keywords := setInsert i.keywords token docPath }
        else i)
      idx
    let idx :=
      if category ≠ "" then
        { idx with categories := setInsert idx.categories category docPath }
      else idx
    if jsTruthy tagsVal then
      match jsIterate tagsVal with
      | none => idx
      | some tagList =>
        tagList.foldl (fun i tag => { i with tags := setInsert i.tags tag docPath }) idx
    else idx

/-!
Concrete corpora used by the counterexamples and witnesses.
-/

/-- A parsed file with no frontmatter at all. -/
def bareFile (content : String) : ParsedFile :=
  { title := none, tags := none, category := none, related := none,
    summary := none, content := content, mtime := 0 }

/-- Corpus with a single document `api/guide.md` whose body repeats `foo`. -/
def fsGuide : FSTree :=
  .dir (some [("api", .dir (some [("guide.md", .file (some (bareFile "foo foo foo foo")))]))])

/-- The snapshot built from `fsGuide` with root `/d`. -/
def idxGuide : DocumentIndex := buildIndexRun "/d" fsGuide

/-- Corpus with a single root document `a.md` whose frontmatter declares itself
as related. -/
def fsSelfRel : FSTree :=
  .dir (some [("a.md", .file (some
    { title := none, tags := none, category := none, related := some ["a.md"],
      summary := none, content := "plain body", mtime := 0 }))])

/-- The snapshot built from `fsSelfRel` with root `/docs`. -/
def idxSelfRel : DocumentIndex := buildIndexRun "/docs" fsSelfRel

/-- Corpus with a single document `ab.md` whose body repeats the two-character
token `ab`. -/
def fsShort : FSTree :=
  .dir (some [("ab.md", .file (some (bareFile "ab ab ab")))])

/-- The snapshot built from `fsShort` with root `/d`. -/
def idxShort : DocumentIndex := buildIndexRun "/d" fsShort

/-- The document stored for `api/guide.md` in `idxGuide`. -/
def guideDoc : Document :=
  { path := "api/guide.md", content := "foo foo foo foo",
    metadata := { title := "Guide", tags := [], category := "api",
                  related := [], summary := "" },
    lastModified := 0 }

/-- Frontmatter parse result carrying `tags: 5` (a YAML number). -/
def c3Parsed : DynParsed :=
  { title := none, tagsVal := some (JSVal.jnum 5), category := none,
    related := none, summary := none, content := "hello world hello", mtime := 0 }

/-- The index state after `indexDocument` processes the `tags: 5` file. -/
def c3Result : DynIndex :=
  indexDocumentDyn "/docs" "/docs/a.md" (some c3Parsed) emptyDynIndex

/-- Source document with a duplicated tag, and its neighbor (claim C4). -/
def dupTagDoc : Document :=
  { path := "a.md", content := "", lastModified := 0,
    metadata := { title := "A", tags := ["x", "x"], category := "alpha",
                  related := [], summary := "" } }

def oneTagDoc : Document :=
  { path := "b.md", content := "", lastModified := 0,
    metadata := { title := "B", tags := ["x"], category := "beta",
                  related := [], summary := "" } }

/-- The total score contribution of one query token in `docScore`: keyword hit,
TF-IDF weight, title-substring bonus, tag-substring bonus. -/
def tokContrib (idx : DocumentIndex) (docPath : String) (d : Document)
    (token : String) : Int :=
  (if kwHas idx token docPath then 1 else 0) +
    (match mapGet idx.tfidf docPath with
     | some tfidfScores => (mapGet tfidfScores token).getD 0
     | none => 0) +
    (if strIncludes (lowerString d.metadata.title) token then 5 else 0) +
    (if d.metadata.tags.any (fun tag => strIncludes (lowerString tag) token) then 3
     else 0)

/-- Every TF-IDF weight stored in the snapshot is nonnegative.  This holds for
the tables the build produces (`natural` computes `tf * (1 + ln(N / (1 + df)))`
with a positive idf factor, and the model stores the tf counts); `search` is
proved monotone for any snapshot satisfying it. -/
def tfidfNonneg (idx : DocumentIndex) : Prop :=
  ∀ e ∈ idx.tfidf, ∀ kv ∈ e.2, (0 : Int) ≤ kv.2

/-- Corpus with two documents that share the path-derived category `a`. -/
def fsTwoCat : FSTree :=
  .dir (some [("a", .dir (some
    [("x.md", .file (some (bareFile "alpha body"))),
     ("y.md", .file (some (bareFile "beta body")))]))])

/-- The snapshot built from `fsTwoCat` with root `/d`. -/
def idxTwoCat : DocumentIndex := buildIndexRun "/d" fsTwoCat

/-- The document stored for `a/x.md` in `idxTwoCat`. -/
def docAX : Document :=
  { path := "a/x.md", content := "alpha body", lastModified := 0,
    metadata := { title := "X", tags := [], category := "a",
                  related := [], summary := "" } }

/-- The document stored for `a/y.md` in `idxTwoCat`. -/
def docAY : Document :=
  { path := "a/y.md", content := "beta body", lastModified := 0,
    metadata := { title := "Y", tags := [], category := "a",
                  related := [], summary := "" } }

/-- Corpus with one document `t.md` carrying frontmatter tags `x` and `y`. -/
def fsTagged : FSTree :=
  .dir (some [("t.md", .file (some
    { title := none, tags := some ["x", "y"], category := none, related := none,
      summary := none, content := "hello world hello hello", mtime := 0 }))])

/-- The snapshot built from `fsTagged` with root `/d`. -/
def idxTagged : DocumentIndex := buildIndexRun "/d" fsTagged

/-!
Helper lemmas about the collection models.
-/

theorem mem_jsAdd {s : List String} {x y : String} :
    x ∈ jsAdd s y ↔ x ∈ s ∨ x = y := by
  unfold jsAdd
  by_cases h : y ∈ s
  · simp only [if_pos h]
    constructor
    · exact Or.inl
    · rintro (hx | rfl) <;> assumption
  · simp [if_neg h, List.mem_append]

theorem self_mem_jsAdd (s : List String) (y : String) : y ∈ jsAdd s y :=
  mem_jsAdd.mpr (Or.inr rfl)

theorem mem_jsAdd_of_mem {s : List String} {x : String} (y : String) (h : x ∈ s) :
    x ∈ jsAdd s y :=
  mem_jsAdd.mpr (Or.inl h)

theorem mapGet_mapSet_self {α : Type} (m : List (String × α)) (k : String) (v : α) :
    mapGet (mapSet m k v) k = some v := by
  induction m with
  | nil => simp [mapSet, mapGet]
  | cons e rest ih =>
    obtain ⟨k', v'⟩ := e
    by_cases h : k' = k
    · subst h; simp [mapSet, mapGet]
    · simp [mapSet, mapGet, h, ih]

theorem mapGet_mapSet_ne {α : Type} (m : List (String × α)) {k k' : String} (v : α)
    (h : k ≠ k') : mapGet (mapSet m k v) k' = mapGet m k' := by
  induction m with
  | nil => simp [mapSet, mapGet, h]
  | cons e rest ih =>
    obtain ⟨q, w⟩ := e
    by_cases hq : q = k
    · subst hq; simp [mapSet, mapGet, h]
    · by_cases hq' : q = k'
      · subst hq'; simp [mapSet, mapGet, hq]
      · simp [mapSet, mapGet, hq, hq', ih]

theorem mem_of_mapGet_eq_some {α : Type} {m : List (String × α)} {k : String} {v : α}
    (h : mapGet m k = some v) : (k, v) ∈ m := by
  induction m with
  | nil => simp [mapGet] at h
  | cons e rest ih =>
    obtain ⟨q, w⟩ := e
    by_cases hq : q = k
    · subst hq
      have h2 : some w = some v := by simpa [mapGet] using h
      obtain rfl := Option.some.inj h2
      exact List.mem_cons_self _ _
    · have h2 : mapGet rest k = some v := by simpa [mapGet, hq] using h
      exact List.mem_cons_of_mem _ (ih h2)

theorem mapGet_isSome_iff {α : Type} (m : List (String × α)) (k : String) :
    (mapGet m k).isSome ↔ k ∈ m.map Prod.fst := by
  induction m with
  | nil => simp [mapGet]
  | cons e rest ih =>
    obtain ⟨q, w⟩ := e
    by_cases hq : q = k
    · subst hq; simp [mapGet]
    · simp [mapGet, hq, ih, Ne.symm hq]

theorem mem_entries_mapSet {α : Type} {m : List (String × α)} {k : String} {v : α}
    {e : String × α} (h : e ∈ mapSet m k v) : e ∈ m ∨ e = (k, v) := by
  induction m with
  | nil => simpa [mapSet] using h
  | cons f rest ih =>
    obtain ⟨q, w⟩ := f
    by_cases hq : q = k
    · subst hq
      simp only [mapSet, if_pos rfl] at h
      rcases List.mem_cons.mp h with h | h
      · exact Or.inr h
      · exact Or.inl (List.mem_cons_of_mem _ h)
    · simp only [mapSet, if_neg hq] at h
      rcases List.mem_cons.mp h with h | h
      · exact Or.inl (h ▸ List.mem_cons_self _ _)
      · rcases ih h with h | h
        · exact Or.inl (List.mem_cons_of_mem _ h)
        · exact Or.inr h

theorem keys_mapSet {α : Type} (m : List (String × α)) (k x : String) (v : α) :
    x ∈ (mapSet m k v).map Prod.fst ↔ x ∈ m.map Prod.fst ∨ x = k := by
  induction m with
  | nil => simp [mapSet]
  | cons e rest ih =>
    obtain ⟨q, w⟩ := e
    by_cases hq : q = k
    · subst hq
      simp only [mapSet, eq_self_iff_true, ite_true, List.map_cons, List.mem_cons]
      tauto
    · simp only [mapSet]
      rw [if_neg hq]
      simp only [List.map_cons, List.mem_cons, ih]
      tauto

theorem keys_setInsert (m : List (String × List String)) (k v x : String) :
    x ∈ (setInsert m k v).map Prod.fst ↔ x ∈ m.map Prod.fst ∨ x = k := by
  unfold setInsert
  cases h : mapGet m k
  · exact keys_mapSet m k x _
  · exact keys_mapSet m k x _

theorem foldl_mem_of_mem {α β : Type} (step : List α → β → List α)
    (hmono : ∀ s e, ∀ x ∈ s, x ∈ step s e) (l : List β) (init : List α)
    {x : α} (hx : x ∈ init) : x ∈ l.foldl step init := by
  induction l generalizing init with
  | nil => exact hx
  | cons e rest ih => exact ih _ (hmono _ _ _ hx)

theorem foldl_mem_intro {α β : Type} (step : List α → β → List α)
    (hmono : ∀ s e, ∀ x ∈ s, x ∈ step s e) {l : List β} {e : β} (he : e ∈ l)
    {x : α} (hstep : ∀ s, x ∈ step s e) (init : List α) :
    x ∈ l.foldl step init := by
  induction l generalizing init with
  | nil => cases he
  | cons f rest ih =>
    rcases List.mem_cons.mp he with rfl | he2
    · exact foldl_mem_of_mem step hmono rest _ (hstep init)
    · exact ih he2 _

theorem foldl_mem_elim {α β : Type} {P : α → β → Prop} (step : List α → β → List α)
    (helim : ∀ s e x, x ∈ step s e → x ∈ s ∨ P x e) {l : List β} {x : α}
    {init : List α} (hx : x ∈ l.foldl step init) : x ∈ init ∨ ∃ e ∈ l, P x e := by
  induction l generalizing init with
  | nil => exact Or.inl hx
  | cons f rest ih =>
    rcases ih hx with h | ⟨e, he, hP⟩
    · rcases helim _ _ _ h with h | hP
      · exact Or.inl h
      · exact Or.inr ⟨f, List.mem_cons_self _ _, hP⟩
    · exact Or.inr ⟨e, List.mem_cons_of_mem _ he, hP⟩

theorem mem_insertScoreDesc {x y : String × Int} {l : List (String × Int)} :
    x ∈ insertScoreDesc y l ↔ x = y ∨ x ∈ l := by
  induction l with
  | nil => simp [insertScoreDesc]
  | cons z rest ih =>
    unfold insertScoreDesc
    by_cases h : y.2 ≤ z.2
    · rw [if_pos h]
      simp only [List.mem_cons, ih]
      try tauto
    · rw [if_neg h]
      simp only [List.mem_cons]
      try tauto

theorem mem_sortByScoreDesc {x : String × Int} {l : List (String × Int)} :
    x ∈ sortByScoreDesc l ↔ x ∈ l := by
  have h : ∀ init, x ∈ l.foldl (fun acc y => insertScoreDesc y acc) init ↔
      x ∈ init ∨ x ∈ l := by
    induction l with
    | nil => simp
    | cons z rest ih =>
      intro init
      rw [List.foldl_cons, ih]
      simp only [mem_insertScoreDesc, List.mem_cons]
      tauto
  simpa [sortByScoreDesc] using h []

/-!
Helper lemmas about `buildRelationships`.
-/

theorem fold_mapSet_skip (g : String → Document → List String)
    (l : List (String × Document)) (m0 : List (String × List String)) {p : String}
    (hp : p ∉ l.map Prod.fst) :
    mapGet (l.foldl (fun m e => mapSet m e.1 (g e.1 e.2)) m0) p = mapGet m0 p := by
  induction l generalizing m0 with
  | nil => rfl
  | cons e rest ih =>
    have hne : e.1 ≠ p := fun h => hp (by simp [h])
    have hrest : p ∉ rest.map Prod.fst := fun h => hp (by simp [h])
    rw [List.foldl_cons, ih _ hrest, mapGet_mapSet_ne _ _ hne]

theorem fold_mapSet_lookup (g : String → Document → List String)
    (l : List (String × Document)) (m0 : List (String × List String)) {p : String}
    {d : Document} (hnd : (l.map Prod.fst).Nodup) (hmem : (p, d) ∈ l) :
    mapGet (l.foldl (fun m e => mapSet m e.1 (g e.1 e.2)) m0) p = some (g p d) := by
  induction l generalizing m0 with
  | nil => cases hmem
  | cons e rest ih =>
    rw [List.map_cons, List.nodup_cons] at hnd
    rcases List.mem_cons.mp hmem with h | h
    · obtain rfl : e = (p, d) := h.symm
      rw [List.foldl_cons, fold_mapSet_skip g rest _ hnd.1, mapGet_mapSet_self]
    · rw [List.foldl_cons]
      exact ih _ hnd.2 h

/-- The relationship set `buildRelationships` stores for a document is the one
`computeRelated` produces for its entry (keys are unique in the documents map). -/
theorem buildRelationships_lookup {docsPath : String}
    {documents : List (String × Document)} {p : String} {d : Document}
    (hnd : (documents.map Prod.fst).Nodup) (hmem : (p, d) ∈ documents) :
    mapGet (buildRelationships docsPath documents) p =
      some (computeRelated docsPath documents p d) :=
  fold_mapSet_lookup (computeRelated docsPath documents) documents [] hnd hmem

theorem mem_computeRelated_of_category {docsPath : String}
    {documents : List (String × Document)} {p1 p2 : String} {d1 d2 : Document}
    (hmem2 : (p2, d2) ∈ documents) (hne : p2 ≠ p1)
    (hcatne : d1.metadata.category ≠ "")
    (hcateq : d1.metadata.category = d2.metadata.category) :
    p2 ∈ computeRelated docsPath documents p1 d1 := by
  unfold computeRelated
  refine foldl_mem_of_mem _ ?mono3 _ _ (foldl_mem_intro _ ?mono2 hmem2 ?hstep _)
  case mono3 =>
    intro s e x hx
    dsimp only
    split
    · exact mem_jsAdd_of_mem _ hx
    · exact hx
  case mono2 =>
    intro s e x hx
    dsimp only
    split
    · exact hx
    · have hbase :
          x ∈ (if d1.metadata.category ≠ "" ∧
                d1.metadata.category = e.2.metadata.category then jsAdd s e.1 else s) := by
        split
        · exact mem_jsAdd_of_mem _ hx
        · exact hx
      split
      · exact mem_jsAdd_of_mem _ hbase
      · exact hbase
  case hstep =>
    intro s
    dsimp only
    rw [if_neg (show ¬ ((p2, d2).1 = p1) from hne),
      if_pos (show d1.metadata.category ≠ "" ∧
        d1.metadata.category = (p2, d2).2.metadata.category from ⟨hcatne, hcateq⟩)]
    split
    · exact mem_jsAdd_of_mem _ (self_mem_jsAdd s p2)
    · exact self_mem_jsAdd s p2

/-!
Claim C6 — shared-category edges are symmetric.
-/

/-- C6: in a built snapshot (one whose relationship map was produced by
`buildRelationships` over its documents map), any two distinct documents with
equal, non-empty categories appear in each other's relationship sets. -/
theorem c6_shared_category_symmetric (docsPath : String) (idx : DocumentIndex)
    (hrel : idx.relationships = buildRelationships docsPath idx.documents)
    (p1 p2 : String) (d1 d2 : Document)
    (hnd : (idx.documents.map Prod.fst).Nodup)
    (h1 : (p1, d1) ∈ idx.documents) (h2 : (p2, d2) ∈ idx.documents)
    (hne : p1 ≠ p2)
    (hcateq : d1.metadata.category = d2.metadata.category)
    (hcatne : d1.metadata.category ≠ "") :
    p2 ∈ (mapGet idx.relationships p1).getD [] ∧
    p1 ∈ (mapGet idx.relationships p2).getD [] := by
  rw [hrel, buildRelationships_lookup hnd h1, buildRelationships_lookup hnd h2]
  refine ⟨mem_computeRelated_of_category h2 (Ne.symm hne) hcatne hcateq, ?_⟩
  have hcatne2 : d2.metadata.category ≠ "" := hcateq ▸ hcatne
  exact mem_computeRelated_of_category h1 hne hcatne2 hcateq.symm

/-- C6, witness: in the concrete snapshot `idxTwoCat`, the two documents filed
under category `a` are mutually related. -/
theorem c6_witness :
    "a/y.md" ∈ (mapGet idxTwoCat.relationships "a/x.md").getD [] ∧
    "a/x.md" ∈ (mapGet idxTwoCat.relationships "a/y.md").getD [] :=
  c6_shared_category_symmetric "/d" idxTwoCat rfl "a/x.md" "a/y.md" docAX docAY
    (by decide) (by decide) (by decide) (by decide) (by decide) (by decide)

/-- A path is in `computeRelated docsPath documents p d` only through the
explicit `related` declarations, the category/tag loop (which skips `p`), or an
embedded link; so `p` itself can only appear when an explicit declaration or a
link normalizes to `p`. -/
theorem not_self_mem_computeRelated {docsPath : String}
    {documents : List (String × Document)} {p : String} {d : Document}
    (hnorel : ∀ r ∈ d.metadata.related, normalizePath docsPath r ≠ p)
    (hnolink : ∀ l ∈ extractLinks d.content, normalizePath docsPath l ≠ p) :
    p ∉ computeRelated docsPath documents p d := by
  intro hp
  unfold computeRelated at hp
  have h3 := foldl_mem_elim
    (P := fun (x : String) link => x = normalizePath docsPath link) _
    (fun s e x hx => by
      dsimp only at hx
      split at hx
      · rcases mem_jsAdd.mp hx with h | h
        · exact Or.inl h
        · exact Or.inr h
      · exact Or.inl hx)
    hp
  rcases h3 with hp2 | ⟨l, hl, hx⟩
  · have h2 := foldl_mem_elim
      (P := fun (x : String) (other : String × Document) => x = other.1 ∧ other.1 ≠ p) _
      (fun s e x hx => by
        dsimp only at hx
        split at hx
        · exact Or.inl hx
        · next hother =>
          have hbase : x ∈ (if d.metadata.category ≠ "" ∧
              d.metadata.category = e.2.metadata.category then jsAdd s e.1 else s) →
              x ∈ s ∨ (x = e.1 ∧ e.1 ≠ p) := by
            intro hb
            split at hb
            · rcases mem_jsAdd.mp hb with h | h
              · exact Or.inl h
              · exact Or.inr ⟨h, hother⟩
            · exact Or.inl hb
          split at hx
          · rcases mem_jsAdd.mp hx with h | h
            · exact hbase h
            · exact Or.inr ⟨h, hother⟩
          · exact hbase hx)
      hp2
    rcases h2 with hp1 | ⟨e, he, hx, hxne⟩
    · have h1 := foldl_mem_elim
        (P := fun (x : String) r => x = normalizePath docsPath r) _
        (fun s e x hx => by
          dsimp only at hx
          split at hx
          · rcases mem_jsAdd.mp hx with h | h
            · exact Or.inl h
            · exact Or.inr h
          · exact Or.inl hx)
        hp1
      rcases h1 with h | ⟨r, hr, hx⟩
      · cases h
      · exact hnorel r hr hx.symm
    · exact hxne hx.symm
  · exact hnolink l hl hx.symm

/-- Every path returned by `getRelatedDocuments` comes from the precomputed
relationship set of the queried document. -/
theorem getRelatedDocuments_subset {idx : DocumentIndex} {docPath : String}
    {limit : Nat} {x : String} (hx : x ∈ getRelatedDocuments idx docPath limit) :
    x ∈ (mapGet idx.relationships docPath).getD [] := by
  unfold getRelatedDocuments at hx
  cases h : mapGet idx.relationships docPath with
  | none => rw [h] at hx; cases hx
  | some related =>
    rw [h] at hx
    dsimp only at hx
    by_cases he : related.isEmpty
    · rw [if_pos he] at hx; cases hx
    · rw [if_neg he] at hx
      obtain ⟨⟨q, sc⟩, hmem, rfl⟩ := List.mem_map.mp hx
      have hsort : (q, sc) ∈ sortByScoreDesc _ := List.take_subset _ _ hmem
      have hscores := mem_sortByScoreDesc.mp hsort
      have helim := foldl_mem_elim
        (P := fun (e : String × Int) (r : String) => e.1 = r) _
        (fun acc e x hx => by
          rcases mem_entries_mapSet hx with h | h
          · exact Or.inl h
          · exact Or.inr (by rw [h]))
        hscores
      rcases helim with h | ⟨r, hr, hx⟩
      · cases h
      · have hqr : q = r := hx
        rw [hqr]
        exact hr

/-!
Claim C2 — no self-loops in the relationship graph.
-/

/-- C2, counterexample: the document `a.md` of `idxSelfRel` declares itself in
its frontmatter `related` list; after the build its relationship set contains
`a.md` itself, and `getRelatedDocuments("a.md", 10)` returns `a.md`.  This
refutes the claim that relationship sets never contain the document itself
regardless of its `related` declarations or embedded links. -/
theorem c2_counterexample :
    "a.md" ∈ (mapGet idxSelfRel.relationships "a.md").getD [] ∧
    "a.md" ∈ getRelatedDocuments idxSelfRel "a.md" 10 := by
  decide

/-- C2, amended: self-loops never arise from the shared-category/shared-tag
rules — in a built snapshot a document's relationship set excludes the document
itself *provided* none of its explicit `related` declarations and none of its
embedded markdown links normalize to its own path; under those provisos
`getRelatedDocuments` never returns the queried id either.  (Without them the
claim fails: see the counterexample.) -/
theorem c2_amended (docsPath : String) (idx : DocumentIndex)
    (hrel : idx.relationships = buildRelationships docsPath idx.documents)
    (p : String) (d : Document)
    (hnd : (idx.documents.map Prod.fst).Nodup) (hmem : (p, d) ∈ idx.documents)
    (hnorel : ∀ r ∈ d.metadata.related, normalizePath docsPath r ≠ p)
    (hnolink : ∀ l ∈ extractLinks d.content, normalizePath docsPath l ≠ p) :
    p ∉ (mapGet idx.relationships p).getD [] ∧
    ∀ limit, p ∉ getRelatedDocuments idx p limit := by
  have hset : p ∉ (mapGet idx.relationships p).getD [] := by
    rw [hrel, buildRelationships_lookup hnd hmem]
    exact not_self_mem_computeRelated hnorel hnolink
  exact ⟨hset, fun limit hx => hset (getRelatedDocuments_subset hx)⟩

/-- C2, witness: the sole document of `idxGuide` declares no related paths and
embeds no links, and indeed never relates to itself. -/
theorem c2_witness :
    "api/guide.md" ∉ (mapGet idxGuide.relationships "api/guide.md").getD [] ∧
    ∀ limit, "api/guide.md" ∉ getRelatedDocuments idxGuide "api/guide.md" limit :=
  c2_amended "/d" idxGuide rfl "api/guide.md" guideDoc (by decide) (by decide)
    (by decide) (by decide)

/-- For a duplicate-free list `l1`, filtering it by membership in `l2` yields
exactly one entry per element of the set intersection. -/
theorem filter_length_eq_inter_card {l1 l2 : List String} (hnd : l1.Nodup) :
    (l1.filter (fun t => l2.contains t)).length =
      (l1.toFinset ∩ l2.toFinset).card := by
  have h1 : (l1.filter (fun t => l2.contains t)).Nodup := hnd.filter _
  have h2 : (l1.filter (fun t => l2.contains t)).toFinset =
      l1.toFinset ∩ l2.toFinset := by
    ext a
    simp [List.mem_toFinset, List.mem_filter]
  rw [← h2, List.toFinset_card_of_nodup h1]

/-!
Claim C4 — the tag-overlap component of the related-document score.
-/

/-- C4, counterexample: with source tags `[x, x]` and neighbor tags `[x]`, the
code's tag component counts the duplicated source tag twice —
`relScore = 1 + 0 + 2 + 0 = 3` — while the claimed formula with a set
intersection gives `specRelScore = 1 + 0 + 1 + 0 = 2`.  The neighbor's score is
not `1 + intersection size` as claimed. -/
theorem c4_counterexample :
    relScore dupTagDoc oneTagDoc "b.md" = 3 ∧
    specRelScore dupTagDoc oneTagDoc "b.md" = 2 := by
  decide

/-- C4, amended: the tag component of a neighbor's score is the number of
entries of the source's tag *list* that occur in the neighbor's tag list, so a
tag repeated in the source's list is counted once per repetition.  When the
source's tag list is duplicate-free this equals the set-intersection size and
the claimed formula holds exactly. -/
theorem c4_amended (d1 d2 : Document) (relPath : String)
    (hnd : d1.metadata.tags.Nodup) :
    relScore d1 d2 relPath = specRelScore d1 d2 relPath := by
  unfold relScore specRelScore
  dsimp only
  rw [filter_length_eq_inter_card hnd]
  split_ifs <;> push_cast <;> ring

/-- C4, witness: applying the amended formula to a duplicate-free source. -/
theorem c4_witness :
    relScore oneTagDoc dupTagDoc "a.md" = specRelScore oneTagDoc dupTagDoc "a.md" :=
  c4_amended oneTagDoc dupTagDoc "a.md" (by decide)

/-!
Helper lemmas for the keyword-length invariant (claim C5).
-/

theorem kwInv_fold_tokens (toks : List String) (docPath : String)
    (i : DocumentIndex) (h : ∀ k ∈ i.keywords.map Prod.fst, 2 < k.length) :
    ∀ k ∈ ((toks.foldl
        (fun i token =>
          if token.length > 2 then
            { i with keywords := setInsert i.keywords token docPath }
          else i) i).keywords.map Prod.fst),
      2 < k.length := by
  induction toks generalizing i with
  | nil => exact h
  | cons t rest ih =>
    rw [List.foldl_cons]
    apply ih
    by_cases ht : t.length > 2
    · rw [if_pos ht]
      intro k hk
      rcases (keys_setInsert _ _ _ _).mp hk with h2 | rfl
      · exact h k h2
      · exact ht
    · rw [if_neg ht]
      exact h

theorem kwInv_indexKeywords {idx : DocumentIndex} {doc : Document} (k : String)
    (hk : k ∈ (indexKeywords idx doc).keywords.map Prod.fst)
    (h : ∀ k ∈ idx.keywords.map Prod.fst, 2 < k.length) : 2 < k.length := by
  unfold indexKeywords at hk
  exact kwInv_fold_tokens _ doc.path idx h k hk

theorem keywords_tags_fold (l : List String) (docPath : String) (i : DocumentIndex) :
    (l.foldl (fun i tag => { i with tags := setInsert i.tags tag docPath }) i).keywords
      = i.keywords := by
  induction l generalizing i with
  | nil => rfl
  | cons t rest ih =>
    rw [List.foldl_cons]
    exact ih _

theorem kwInv_indexDocument (docsPath : String) (root : FSTree)
    (idx : DocumentIndex) (filePath : String)
    (h : ∀ k ∈ idx.keywords.map Prod.fst, 2 < k.length) :
    ∀ k ∈ (indexDocument docsPath root idx filePath).keywords.map Prod.fst,
      2 < k.length := by
  unfold indexDocument
  cases hread : fsReadFile docsPath root filePath with
  | none => exact h
  | some parsed =>
    dsimp only
    intro k hk
    rw [keywords_tags_fold] at hk
    split at hk
    · exact kwInv_indexKeywords k hk h
    · exact kwInv_indexKeywords k hk h

theorem kwInv_files_fold (docsPath : String) (root : FSTree) (files : List String)
    (i : DocumentIndex) (h : ∀ k ∈ i.keywords.map Prod.fst, 2 < k.length) :
    ∀ k ∈ ((files.foldl (indexDocument docsPath root) i).keywords.map Prod.fst),
      2 < k.length := by
  induction files generalizing i with
  | nil => exact h
  | cons f rest ih =>
    rw [List.foldl_cons]
    exact ih _ (kwInv_indexDocument docsPath root i f h)

/-!
Claim C5 — token lengths in the keyword index and the TF-IDF table.
-/

/-- C5, counterexample: the TF-IDF table stores terms with no length filter.
In the snapshot built from a document whose text repeats the two-character
token `ab`, the stored per-document TF-IDF map contains the term `ab` of
length 2, refuting the half of the claim about the tfidf maps. -/
theorem c5_counterexample :
    "ab" ∈ ((mapGet idxShort.tfidf "ab.md").getD []).map Prod.fst ∧
    ¬ (2 < "ab".length) := by
  decide

/-- C5, amended: in every built snapshot, every token registered in the keyword
inverted index has length greater than 2 (the `token.length > 2` guard of
`indexKeywords`); the per-document TF-IDF maps carry no such guarantee, since
`buildTfIdfIndex` stores every non-stopword token of the document text
regardless of length. -/
theorem c5_amended (docsPath : String) (root : FSTree) :
    ∀ tok ∈ (buildIndexRun docsPath root).keywords.map Prod.fst, 2 < tok.length := by
  unfold buildIndexRun
  dsimp only
  exact kwInv_files_fold docsPath root _ emptyIndex (by intro k hk; cases hk)

/-- C5, witness: a keyword of the concrete snapshot `idxGuide` indeed has
length greater than 2. -/
theorem c5_witness : 2 < "foo".length :=
  c5_amended "/d" fsGuide "foo" (by decide)

/-- Every path `search` returns belongs to a stored document that passed both
the category filter and the required-tags filter. -/
theorem search_mem_elim {idx : DocumentIndex} {query : String}
    {category : Option String} {tags : Option (List String)} {p : String}
    (hp : p ∈ search idx query category tags) :
    ∃ d, (p, d) ∈ idx.documents ∧ catSkip category d = false ∧
      tagSkip tags d = false := by
  unfold search at hp
  obtain ⟨⟨q, sc⟩, hmem, rfl⟩ := List.mem_map.mp hp
  have hscores := mem_sortByScoreDesc.mp hmem
  have helim := foldl_mem_elim
    (P := fun (x : String × Int) (e : String × Document) =>
      x.1 = e.1 ∧ catSkip category e.2 = false ∧ tagSkip tags e.2 = false) _
    (fun acc e x hx => by
      dsimp only at hx
      by_cases hcat : catSkip category e.2
      · rw [if_pos hcat] at hx
        exact Or.inl hx
      · rw [if_neg hcat] at hx
        by_cases htag : tagSkip tags e.2
        · rw [if_pos htag] at hx
          exact Or.inl hx
        · rw [if_neg htag] at hx
          split at hx
          · rcases mem_entries_mapSet hx with h | h
            · exact Or.inl h
            · refine Or.inr ⟨by rw [h], ?_, ?_⟩
              · simpa using hcat
              · simpa using htag
          · exact Or.inl hx)
    hscores
  rcases helim with h | ⟨e, he, h1, h2, h3⟩
  · cases h
  · have : (q, e.2) = e := by
      obtain ⟨e1, e2⟩ := e
      simpa using h1
    exact ⟨e.2, this ▸ he, h2, h3⟩

/-!
Claim C7 — the category filter of `search`.
-/

/-- C7, counterexample: the claim fails for the category argument `""`: the
empty string is falsy in the guard `if (category && ...)`, so no filtering
occurs, and `search(q, category="")` returns the document of `idxGuide` whose
category is `"api" ≠ ""`. -/
theorem c7_counterexample :
    search idxGuide "foo" (some "") none = ["api/guide.md"] ∧
    (mapGet idxGuide.documents "api/guide.md").map (fun d => d.metadata.category) =
      some "api" ∧ "api" ≠ "" := by
  decide

/-- C7, amended: for every *non-empty* category argument `C`, every path
`search(q, category=C, tags?)` returns belongs to a document stored in the
snapshot whose metadata category equals `C` exactly; documents with any other
category are excluded before scoring.  (With `C = ""` the filter is skipped:
see the counterexample.) -/
theorem c7_amended (idx : DocumentIndex) (query : String) (C : String)
    (tags : Option (List String)) (p : String) (hC : C ≠ "")
    (hp : p ∈ search idx query (some C) tags) :
    ∃ d, (p, d) ∈ idx.documents ∧ d.metadata.category = C := by
  obtain ⟨d, hmem, hcat, -⟩ := search_mem_elim hp
  refine ⟨d, hmem, ?_⟩
  unfold catSkip at hcat
  rw [decide_eq_false_iff_not] at hcat
  push_neg at hcat
  exact hcat hC

/-- C7, witness: a search filtered by the non-empty category `api`. -/
theorem c7_witness :
    ∃ d, ("api/guide.md", d) ∈ idxGuide.documents ∧ d.metadata.category = "api" :=
  c7_amended idxGuide "foo" "api" none "api/guide.md" (by decide) (by decide)

/-!
Claim C8 — the required-tags filter of `search`.
-/

/-- C8: for a non-empty required-tag list `S`, `search(q, tags=S)` returns a
path only if it belongs to a stored document whose tag list contains every tag
of `S` as an exact, case-sensitive string match. -/
theorem c8_required_tags_subset (idx : DocumentIndex) (query : String)
    (category : Option String) (S : List String) (p : String) (hS : S ≠ [])
    (hp : p ∈ search idx query category (some S)) :
    ∃ d, (p, d) ∈ idx.documents ∧ ∀ t ∈ S, t ∈ d.metadata.tags := by
  obtain ⟨d, hmem, -, htag⟩ := search_mem_elim hp
  refine ⟨d, hmem, ?_⟩
  unfold tagSkip at htag
  rw [decide_eq_false_iff_not] at htag
  push_neg at htag
  exact htag hS

set_option maxRecDepth 8192 in
/-- C8, witness: searching `idxTagged` with the required tag `x` returns its
document, whose tag list indeed contains `x`. -/
theorem c8_witness :
    ∃ d, ("t.md", d) ∈ idxTagged.documents ∧ ∀ t ∈ ["x"], t ∈ d.metadata.tags :=
  c8_required_tags_subset idxTagged "hello" none ["x"] "t.md" (by decide) (by decide)

/-!
Claim C9 — monotonicity of the search score in the query tokens.
-/

theorem foldl_add_shift (g : String → Int) (l : List String)
    (step : Int → String → Int) (hstep : ∀ s t, step s t = s + g t) (a : Int) :
    l.foldl step a = a + (l.map g).sum := by
  induction l generalizing a with
  | nil => simp
  | cons t rest ih =>
    rw [List.foldl_cons, hstep, ih, List.map_cons, List.sum_cons]
    ring

theorem sum_map_add (f g : String → Int) (l : List String) :
    (l.map (fun t => f t + g t)).sum = (l.map f).sum + (l.map g).sum := by
  induction l with
  | nil => simp
  | cons t rest ih =>
    simp only [List.map_cons, List.sum_cons, ih]
    ring

/-- Sum of a pointwise four-way split of the mapped function. -/
theorem sum_map_split4 (g1 g2 g3 g4 : String → Int) (l : List String) :
    (l.map (fun t => g1 t + g2 t + g3 t + g4 t)).sum =
      (l.map g1).sum + (l.map g2).sum + (l.map g3).sum + (l.map g4).sum := by
  induction l with
  | nil => simp
  | cons t rest ih =>
    simp only [List.map_cons, List.sum_cons, ih]
    ring

/-- The accumulated search score is the sum of the per-token contributions. -/
theorem docScore_eq_sum (idx : DocumentIndex) (toks : List String) (p : String)
    (d : Document) :
    docScore idx toks p d = (toks.map (tokContrib idx p d)).sum := by
  unfold docScore tokContrib
  dsimp only
  rw [foldl_add_shift
      (fun t => if d.metadata.tags.any (fun tag => strIncludes (lowerString tag) t)
        then (3 : Int) else 0) _
      (fun s token => if d.metadata.tags.any (fun tag => strIncludes (lowerString tag) token)
        then s + 3 else s)
      (fun s t => by
        by_cases h : d.metadata.tags.any (fun tag => strIncludes (lowerString tag) t) <;>
          simp [h]) _]
  rw [foldl_add_shift
      (fun t => if strIncludes (lowerString d.metadata.title) t then (5 : Int) else 0) _
      (fun s token => if strIncludes (lowerString d.metadata.title) token
        then s + 5 else s)
      (fun s t => by
        by_cases h : strIncludes (lowerString d.metadata.title) t <;> simp [h]) _]
  rw [foldl_add_shift (fun t => if kwHas idx t p then (1 : Int) else 0) _
      (fun s token => if kwHas idx token p then s + 1 else s)
      (fun s t => by by_cases h : kwHas idx t p <;> simp [h]) 0]
  cases htf : mapGet idx.tfidf p with
  | none =>
    simp only [htf]
    rw [sum_map_split4]
    have hz : (toks.map (fun _ => (0 : Int))).sum = 0 := by
      induction toks with
      | nil => rfl
      | cons t rest ih => simp [ih]
    rw [hz]
    ring
  | some m =>
    simp only [htf]
    rw [foldl_add_shift (fun t => ((mapGet m t).getD 0 : Int)) _
        (fun s token => s + (mapGet m token).getD 0) (fun s t => rfl) _]
    rw [sum_map_split4]
    ring

/-- Each token contributes a nonnegative amount when the stored TF-IDF weights
are nonnegative. -/
theorem tokContrib_nonneg {idx : DocumentIndex} {p : String} {d : Document}
    {t : String} (h : tfidfNonneg idx) : 0 ≤ tokContrib idx p d t := by
  unfold tokContrib
  have h2 : (0 : Int) ≤ (match mapGet idx.tfidf p with
      | some tfidfScores => (mapGet tfidfScores t).getD 0
      | none => 0) := by
    cases htf : mapGet idx.tfidf p with
    | none => simp
    | some m =>
      cases hm : mapGet m t with
      | none => simp [hm]
      | some w =>
        have hw := h _ (mem_of_mapGet_eq_some htf) _ (mem_of_mapGet_eq_some hm)
        simpa [hm] using hw
  split_ifs <;> omega

/-- C9, counterexample: the claim quantifies over query *token sets*, but the
score sums over the token list: the queries `foo` and `foo foo` have the same
token set, yet the duplicated token doubles every contribution, so the score
under `foo foo` strictly exceeds the score under `foo` even though the token
set of `foo foo` is a subset of that of `foo`. -/
theorem c9_counterexample :
    (tokenize "foo foo").toFinset ⊆ (tokenize "foo").toFinset ∧
    mapGet idxGuide.documents "api/guide.md" = some guideDoc ∧
    docScore idxGuide (tokenize "foo") "api/guide.md" guideDoc <
      docScore idxGuide (tokenize "foo foo") "api/guide.md" guideDoc := by
  decide

/-- C9, amended: search scoring is monotone in the query token *multiset*: if
every token occurs in `q2` at most as often as in `q1`, and the stored TF-IDF
weights are nonnegative (as the build guarantees), then the accumulated score
of any document under `q1` is at least its score under `q2`.  Set-level
containment is not enough because duplicated query tokens contribute once per
occurrence (see the counterexample). -/
theorem c9_amended (idx : DocumentIndex) (d : Document) (p : String)
    (q1 q2 : String) (hnn : tfidfNonneg idx)
    (hsub : (tokenize q2 : Multiset String) ≤ (tokenize q1 : Multiset String)) :
    docScore idx (tokenize q2) p d ≤ docScore idx (tokenize q1) p d := by
  rw [docScore_eq_sum, docScore_eq_sum]
  have key : ∀ l : List String,
      (l.map (tokContrib idx p d)).sum = ((l : Multiset String).map (tokContrib idx p d)).sum := by
    intro l
    simp
  rw [key, key]
  obtain ⟨u, hu⟩ := Multiset.le_iff_exists_add.mp hsub
  rw [hu, Multiset.map_add, Multiset.sum_add]
  have hnonneg : 0 ≤ (u.map (tokContrib idx p d)).sum := by
    apply Multiset.sum_nonneg
    intro x hx
    obtain ⟨t, -, rfl⟩ := Multiset.mem_map.mp hx
    exact tokContrib_nonneg hnn
  linarith

/-- C9, witness: dropping the token `bar` from the query `foo bar` cannot raise
the score of the `idxGuide` document. -/
theorem c9_witness :
    docScore idxGuide (tokenize "foo") "api/guide.md" guideDoc ≤
      docScore idxGuide (tokenize "foo bar") "api/guide.md" guideDoc :=
  c9_amended idxGuide guideDoc "api/guide.md" "foo bar" "foo"
    (by unfold tfidfNonneg; decide) (by decide)

/-!
Claim C1 — root-directory failure behaviour of `buildIndex`.
-/

/-- C1, counterexample: with the root directory entirely inaccessible
(`FSTree.dir none`, i.e. `fs.readdir` on the root throws), `buildIndex` does
not fail: it completes with `Except.ok` and publishes the *empty* snapshot,
even though the previous snapshot (`idxSelfRel`) was non-empty.  This refutes
the claim that such a build fails and leaves the previous snapshot in place. -/
theorem c1_counterexample :
    buildIndex { docsPath := "/docs", index := idxSelfRel } (FSTree.dir none) =
      Except.ok { docsPath := "/docs", index := emptyIndex } ∧
    idxSelfRel.documents ≠ [] :=
  ⟨rfl, by decide⟩

/-- C1, amended: `buildIndex` never fails — every fallible step of the source
is wrapped in a try/catch — and when the root directory cannot be read it
completes successfully with an empty snapshot that replaces the previous one
(the snapshot queries see afterwards contains no documents). -/
theorem c1_amended (s : IndexerState) (root : FSTree) :
    (buildIndex s root).isOk = true ∧
    buildIndex s (FSTree.dir none) = Except.ok { s with index := emptyIndex } :=
  ⟨rfl, rfl⟩

/-!
Claim C3 — all-or-nothing indexing of a single file.
-/

/-- C3: evaluation of `indexDocument` at the failing input — a file whose
frontmatter contains `tags: 5` (a YAML scalar).  The `...parsed.data` spread
puts the raw number back into `metadata.tags`, and `for (const tag of 5)`
throws a `TypeError` after the document, keyword, and category structures were
already mutated: the file ends up registered in `documents`, in the keyword
index and in the category index, but in no entry of the tag index, violating
the indexed-fully-or-not-at-all invariant the claim states. -/
theorem c3_code_bug_eval :
    c3Result.documents.map Prod.fst = ["a.md"] ∧
    mapGet c3Result.keywords "hello" = some ["a.md"] ∧
    mapGet c3Result.categories "general" = some ["a.md"] ∧
    c3Result.tags = [] := by
  decide

/-!
Claim C10 — `getDocument` is an exact-key lookup.
-/

/-- C10: `getDocument` performs an exact-key lookup with no normalization of
its argument: it returns a document exactly when the argument is
character-for-character equal to a stored path (first conjunct), and any
document it returns is stored under precisely that key (second conjunct).  In
particular any other spelling of an indexed path — a `./` prefix, an absolute
path — is not a stored key and yields an absent result. -/
theorem c10_exact_lookup (idx : DocumentIndex) (id : String) :
    ((getDocument idx id).isSome ↔ id ∈ idx.documents.map Prod.fst) ∧
    (∀ d, getDocument idx id = some d → (id, d) ∈ idx.documents) :=
  ⟨mapGet_isSome_iff _ _, fun _ h => mem_of_mapGet_eq_some h⟩

/-- C10, witness: in the concrete snapshot `idxSelfRel` the stored key `a.md`
resolves while the `./a.md` spelling of the same file does not. -/
theorem c10_witness :
    (getDocument idxSelfRel "a.md").isSome ∧
    ¬ (getDocument idxSelfRel "./a.md").isSome :=
  ⟨(c10_exact_lookup idxSelfRel "a.md").1.mpr (by decide),
   fun h => absurd ((c10_exact_lookup idxSelfRel "./a.md").1.mp h) (by decide)⟩

end DocsMcp
